import Mathlib

/-!
Shallow embedding of `pypdfium2/_helpers/document.py` (class `PdfDocument`
and the module-level helper `_writer_class`), together with proofs about the
concurrent rendering pipeline, document lifecycle, outline traversal and
save/reopen behaviour.

Python semantics are modelled as follows: the process pool
(`ProcessPoolExecutor.map`) is a slot machine parameterised by the order in
which worker tasks complete; exceptions are `Except`; mutable helper state is
explicit state passing.
-/

namespace PyPdfium

/-! ## Process pool model

`ProcessPoolExecutor.map(f, tasks)` dispatches one task per element and
delivers results in submission order, buffering results of tasks that
complete early.  We model completion order as a list `schedule` of task
slots: slot `j` of the output is filled when `j` occurs in `schedule`.
A run of the real executor corresponds to a `schedule` that is a
permutation of `List.range tasks.length` (every task completes exactly
once); the results are then read back in submission order. -/

/-- One completion event: a worker finishes task `j`; its result is stored in slot `j`. -/
def poolStep (f : α → β) (tasks : List α) (slots : List (Option β)) (j : Nat) :
    List (Option β) :=
  match tasks.get? j with
  | some t => slots.set j (some (f t))
  | none => slots

/-- Slot contents after all completion events in `schedule` have happened. -/
def poolSlots (f : α → β) (tasks : List α) (schedule : List Nat) : List (Option β) :=
  schedule.foldl (poolStep f tasks) (List.replicate tasks.length none)

/-- Read the slots back in submission order; `none` if some slot is unfilled. -/
def collectSlots : List (Option β) → Option (List β)
  | [] => some []
  | none :: _ => none
  | some b :: rest => (collectSlots rest).map (b :: ·)

/-- `pool.map` output: the slots read back in submission order; `none` if some
task never completed (impossible for a complete schedule, see `poolMap_perm`). -/
def poolMap (f : α → β) (tasks : List α) (schedule : List Nat) : Option (List β) :=
  collectSlots (poolSlots f tasks schedule)

theorem poolStep_length (f : α → β) (tasks : List α) (slots : List (Option β)) (j : Nat) :
    (poolStep f tasks slots j).length = slots.length := by
  unfold poolStep
  cases tasks.get? j <;> simp

theorem poolStep_get?_ne (f : α → β) (tasks : List α) (slots : List (Option β))
    (j i : Nat) (h : i ≠ j) : (poolStep f tasks slots j).get? i = slots.get? i := by
  cases ht : tasks.get? j with
  | none => simp only [poolStep, ht]
  | some t =>
      simp only [poolStep, ht]
      exact List.get?_set_ne _ _ (fun hc => h hc.symm)

theorem poolStep_get?_self (f : α → β) (tasks : List α) (slots : List (Option β))
    (i : Nat) (hi : i < tasks.length) (hlen : slots.length = tasks.length) :
    (poolStep f tasks slots i).get? i = (tasks.get? i).map (fun t => some (f t)) := by
  cases ht : tasks.get? i with
  | none => exact absurd (List.get?_eq_none.mp ht) (by omega)
  | some t =>
      simp only [poolStep, ht]
      rw [List.get?_set_eq_of_lt _ (by omega)]
      rfl

theorem poolStep_oob (f : α → β) (tasks : List α) (slots : List (Option β))
    (j : Nat) (hj : tasks.length ≤ j) : poolStep f tasks slots j = slots := by
  have ht : tasks.get? j = none := List.get?_eq_none.mpr hj
  simp only [poolStep, ht]

theorem foldl_poolStep_length (f : α → β) (tasks : List α) (schedule : List Nat)
    (init : List (Option β)) :
    (schedule.foldl (poolStep f tasks) init).length = init.length := by
  induction schedule generalizing init with
  | nil => rfl
  | cons j rest ih => rw [List.foldl_cons, ih, poolStep_length]

theorem foldl_poolStep_get? (f : α → β) (tasks : List α) (schedule : List Nat)
    (init : List (Option β)) (hlen : init.length = tasks.length) (i : Nat) :
    (schedule.foldl (poolStep f tasks) init).get? i =
      if i ∈ schedule ∧ i < tasks.length
      then (tasks.get? i).map (fun t => some (f t))
      else init.get? i := by
  induction schedule generalizing init with
  | nil => simp
  | cons j rest ih =>
      rw [List.foldl_cons, ih (poolStep f tasks init j)
        (by rw [poolStep_length]; exact hlen)]
      by_cases hmem : i ∈ rest ∧ i < tasks.length
      · rw [if_pos hmem, if_pos ⟨List.mem_cons_of_mem j hmem.1, hmem.2⟩]
      · rw [if_neg hmem]
        by_cases hij : i = j
        · subst hij
          by_cases hi : i < tasks.length
          · rw [if_pos ⟨List.mem_cons_self i rest, hi⟩]
            exact poolStep_get?_self f tasks init i hi hlen
          · rw [if_neg (by intro h; exact hi h.2),
              poolStep_oob f tasks init i (by omega)]
        · rw [if_neg (by
            intro h
            rcases List.mem_cons.mp h.1 with h1 | h1
            · exact hij h1
            · exact hmem ⟨h1, h.2⟩)]
          exact poolStep_get?_ne f tasks init j i hij

theorem collectSlots_map_some (l : List β) :
    collectSlots (l.map (fun b => (some b : Option β))) = some l := by
  induction l with
  | nil => rfl
  | cons b bs ih => simp [collectSlots, ih]

/-- The executor's contract: when every task completes exactly once — in any
order — `pool.map` delivers exactly `tasks.map f`, in submission order. -/
theorem poolMap_perm (f : α → β) (tasks : List α) (schedule : List Nat)
    (hs : schedule.Perm (List.range tasks.length)) :
    poolMap f tasks schedule = some (tasks.map f) := by
  have hslots : poolSlots f tasks schedule = tasks.map (fun t => some (f t)) := by
    apply List.ext
    intro i
    unfold poolSlots
    rw [foldl_poolStep_get? f tasks schedule _ (by simp) i]
    by_cases hi : i < tasks.length
    · rw [if_pos ⟨hs.mem_iff.mpr (List.mem_range.mpr hi), hi⟩, List.get?_map]
    · rw [if_neg (by intro h; exact hi h.2),
        List.get?_eq_none.mpr (by rw [List.length_replicate]; omega),
        List.get?_eq_none.mpr (by rw [List.length_map]; omega)]
  rw [poolMap, hslots, show tasks.map (fun t => some (f t))
      = (tasks.map f).map (fun b => (some b : Option β)) by rw [List.map_map]; rfl]
  exact collectSlots_map_some _

/-! ## Worker-side rendering invocation (`PdfDocument._process_page`)

The worker opens its own document and page, renders, then runs
`for g in (page, pdf): g.close()`.  There is no try/finally around the
render call, so the close loop is reached only when the renderer returns
normally.  `WorkerHandles` records which of the two handles opened by the
invocation are still open when it returns or raises. -/

structure WorkerHandles where
  docOpen : Bool
  pageOpen : Bool
  deriving DecidableEq, Repr

/-- `PdfDocument._process_page(index, renderer_name, input_data, password,
file_access, **kwargs)`.  `renderOutcome` models the call
`getattr(page, "render_to"+renderer_name)(**kwargs)`, which may raise
(modelled as `Except.error`).  The returned `WorkerHandles` is the state of
the worker's own document/page handles at exit. -/
def _process_page (index : Int) (renderOutcome : Except String ρ) :
    Except String (ρ × Int) × WorkerHandles :=
  -- pdf = cls(input_data, password=password, file_access=file_access)
  let h0 : WorkerHandles := { docOpen := true, pageOpen := false }
  -- page = pdf.get_page(index)
  let h1 : WorkerHandles := { h0 with pageOpen := true }
  -- result = getattr(page, "render_to"+renderer_name)(**kwargs)
  match renderOutcome with
  | .error e => (.error e, h1)  -- the exception propagates; the close loop below never runs
  | .ok result =>
      -- for g in (page, pdf): g.close()
      (.ok (result, index), { docOpen := false, pageOpen := false })

/-! ## Concurrent rendering (`PdfDocument._render_base`)

Modelled for a worker whose render call succeeds, so the value fed back to
the orchestrator is exactly the `(result, index)` pair produced by
`_process_page`.  `render` is the per-page render function of the document
(what `render_to…` produces for a given page index), `n_pages` is
`len(self)`, and `schedule` is the completion order of the pool workers. -/

inductive RenderErr
  /-- `ValueError("A page index is out of bounds.")` -/
  | valueError
  /-- `assert index == page_indices[i]` or `assert len(page_indices) == i` failing -/
  | assertionError
  /-- modelling artifact: a schedule that does not complete every task;
  unreachable for a real executor run (see `poolMap_perm`) -/
  | poolIncomplete
  deriving DecidableEq, Repr

/-- The orchestrator's consumption loop:
`for result, index in pool.map(...): assert index == page_indices[i]; i += 1; yield result`
followed by `assert len(page_indices) == i`. -/
def yieldLoop (expected : List Int) (results : List (ρ × Int)) :
    Except RenderErr (List ρ) :=
  match expected, results with
  | [], [] => .ok []
  | e :: es, (r, idx) :: rs =>
      if idx = e then
        match yieldLoop es rs with
        | .ok out => .ok (r :: out)
        | .error err => .error err
      else .error .assertionError
  | _ :: _, [] => .error .assertionError
  | [], _ :: _ => .error .assertionError

/-- Lines 432-433:
`if page_indices is None or len(page_indices) == 0: page_indices = [i for i in range(n_pages)]` -/
def effectiveIndices (n_pages : Nat) (page_indices : Option (List Int)) : List Int :=
  match page_indices with
  | none => (List.range n_pages).map Int.ofNat
  | some l => if l.length = 0 then (List.range n_pages).map Int.ofNat else l

/-- `PdfDocument._render_base`.  Returns the outcome of the generator run
(the list of yielded results, or the exception raised) together with the
list of page indices dispatched to the pool (`[]` when the bounds check
raises before dispatch).  The worker function fed to `pool.map` is
`_process_page` specialised to a successful render, so its value is the
`(result, index)` pair of that function's `.ok` branch. -/
def _render_base (n_pages : Nat) (render : Int → ρ)
    (page_indices : Option (List Int)) (schedule : List Nat) :
    Except RenderErr (List ρ) × List Int :=
  -- if not all(0 <= i < n_pages for i in page_indices): raise ValueError(...)
  if (effectiveIndices n_pages page_indices).all
      (fun i => decide (0 ≤ i ∧ i < (n_pages : Int))) then
    match poolMap (fun index => (render index, index))
        (effectiveIndices n_pages page_indices) schedule with
    | some results =>
        (yieldLoop (effectiveIndices n_pages page_indices) results,
          effectiveIndices n_pages page_indices)
    | none => (.error .poolIncomplete, effectiveIndices n_pages page_indices)
  else
    (.error .valueError, [])

theorem yieldLoop_matched (render : Int → ρ) (indices : List Int) :
    yieldLoop indices (indices.map (fun i => (render i, i))) = .ok (indices.map render) := by
  induction indices with
  | nil => rfl
  | cons i is ih => simp [yieldLoop, ih]

/-- A result arriving out of order is a fatal assertion failure. -/
theorem yieldLoop_mismatch (e : Int) (es : List Int) (r : ρ) (idx : Int)
    (rs : List (ρ × Int)) (h : idx ≠ e) :
    yieldLoop (e :: es) ((r, idx) :: rs) = .error .assertionError := by
  simp [yieldLoop, h]

/-- Characterisation of a full `_render_base` run on in-bounds effective
indices with a complete worker schedule: the generator yields exactly
`indices.map render`, in order, and `indices` is what was dispatched. -/
theorem render_base_run (n_pages : Nat) (render : Int → ρ)
    (page_indices : Option (List Int)) (schedule : List Nat) (indices : List Int)
    (heff : effectiveIndices n_pages page_indices = indices)
    (hb : ∀ i ∈ indices, 0 ≤ i ∧ i < (n_pages : Int))
    (hs : schedule.Perm (List.range indices.length)) :
    _render_base n_pages render page_indices schedule
      = (.ok (indices.map render), indices) := by
  unfold _render_base
  rw [heff]
  rw [if_pos (by
    rw [List.all_eq_true]
    intro i hi
    exact decide_eq_true (hb i hi))]
  rw [poolMap_perm (fun index => (render index, index)) indices schedule hs]
  dsimp only
  rw [yieldLoop_matched render indices]

theorem effectiveIndices_of_ne_nil (n_pages : Nat) (l : List Int) (hne : l ≠ []) :
    effectiveIndices n_pages (some l) = l := by
  simp only [effectiveIndices]
  rw [if_neg (fun h0 => hne (List.length_eq_zero.mp h0))]

/-- C1 (corrected): for every document and every nonempty sequence of valid
page indices, the concurrent render yields exactly one result per requested
index, in request order, for every completion order of the workers; and a
returned index that differs from the expected next index of the request
sequence is a fatal assertion failure.  (An *empty* explicit sequence is
instead treated as "all pages", see `render_base_empty_renders_all`.) -/
theorem render_base_yields_in_request_order (n_pages : Nat) (render : Int → ρ)
    (indices : List Int) (schedule : List Nat)
    (hne : indices ≠ [])
    (hb : ∀ i ∈ indices, 0 ≤ i ∧ i < (n_pages : Int))
    (hs : schedule.Perm (List.range indices.length)) :
    (_render_base n_pages render (some indices) schedule).1
        = .ok (indices.map render) ∧
      ∀ (e idx : Int) (es : List Int) (r : ρ) (rs : List (ρ × Int)), idx ≠ e →
        yieldLoop (e :: es) ((r, idx) :: rs) = .error .assertionError := by
  refine ⟨?_, fun e idx es r rs h => yieldLoop_mismatch e es r idx rs h⟩
  rw [render_base_run n_pages render (some indices) schedule indices
    (effectiveIndices_of_ne_nil n_pages indices hne) hb hs]

/-- Witness for C1: a 2-page document, request order `[1, 0]`, workers
completing in the opposite order `[1, 0]` of submission slots. -/
theorem render_base_yields_in_request_order_witness :
    (_render_base 2 (fun i => (i : Int)) (some [1, 0]) [1, 0]).1 = .ok [1, 0] ∧
      ∀ (e idx : Int) (es : List Int) (r : Int) (rs : List (Int × Int)), idx ≠ e →
        yieldLoop (e :: es) ((r, idx) :: rs) = .error .assertionError := by
  have h := render_base_yields_in_request_order 2 (fun i => (i : Int)) [1, 0] [1, 0]
    (by decide) (by decide) (by decide)
  exact ⟨h.1, h.2⟩

/-- Counterexample to C1 as stated: with a 1-page document and the empty
request sequence, the code renders *all* pages (one result), not zero
results — "exactly one result per requested index" fails for the empty
sequence of valid indices. -/
theorem render_base_empty_request_yields_results :
    (_render_base 1 (fun _ => (0 : Nat)) (some []) [0]).1 = .ok [0] ∧
      ([0] : List Nat).length ≠ ([] : List Int).length := by
  exact ⟨rfl, by simp⟩

/-- C2: if any explicit page index is out of bounds, `_render_base` raises
`ValueError` before dispatch: the outcome is the error and the dispatched
task list is empty — no worker task executes, no partial results exist. -/
theorem render_base_oob_fail_fast (n_pages : Nat) (render : Int → ρ)
    (l : List Int) (schedule : List Nat)
    (h : ∃ i ∈ l, ¬ (0 ≤ i ∧ i < (n_pages : Int))) :
    _render_base n_pages render (some l) schedule = (.error .valueError, []) := by
  obtain ⟨i, hmem, hnot⟩ := h
  have hne : l ≠ [] := fun hl => by subst hl; exact absurd hmem (List.not_mem_nil i)
  unfold _render_base
  rw [effectiveIndices_of_ne_nil n_pages l hne]
  rw [if_neg (fun hall => hnot (of_decide_eq_true (List.all_eq_true.mp hall i hmem)))]

/-- Witness for C2: a 1-page document with requested index 5. -/
theorem render_base_oob_fail_fast_witness :
    _render_base 1 (fun i => (i : Int)) (some [5]) [0]
      = (.error .valueError, []) :=
  render_base_oob_fail_fast 1 (fun i => (i : Int)) [5] [0] ⟨5, by decide, by decide⟩

/-- C9: an explicit but empty page-index sequence behaves identically to
passing `None`: the full range `[0, n_pages)` is generated, and (for any
complete worker schedule) every page is rendered. -/
theorem render_base_empty_renders_all (n_pages : Nat) (render : Int → ρ)
    (schedule : List Nat) :
    _render_base n_pages render (some []) schedule
        = _render_base n_pages render none schedule ∧
      (schedule.Perm (List.range n_pages) →
        (_render_base n_pages render (some []) schedule).1
          = .ok (((List.range n_pages).map Int.ofNat).map render)) := by
  constructor
  · rfl
  · intro hperm
    rw [render_base_run n_pages render (some []) schedule
      ((List.range n_pages).map Int.ofNat) rfl ?_ ?_]
    · intro i hi
      rw [List.mem_map] at hi
      obtain ⟨m, hm, rfl⟩ := hi
      rw [List.mem_range] at hm
      exact ⟨Int.ofNat_nonneg m, Int.ofNat_lt.mpr hm⟩
    · rw [List.length_map, List.length_range]
      exact hperm

/-- Witness for C9: a 2-page document. -/
theorem render_base_empty_renders_all_witness :
    _render_base 2 (fun i => (i : Int)) (some []) [0, 1]
        = _render_base 2 (fun i => (i : Int)) none [0, 1] ∧
      (_render_base 2 (fun i => (i : Int)) (some []) [0, 1]).1 = .ok [0, 1] := by
  have h := render_base_empty_renders_all 2 (fun i => (i : Int)) [0, 1]
  exact ⟨h.1, h.2 (by decide)⟩

/-! ## Document lifecycle (`PdfDocument.close`) -/

/-- State of a `PdfDocument` and its environment as relevant to `close()`:
the native document handle, the loader data (`self._ld_data`), the input
source, and the native page handles obtained from the document that are
still open.  The Python class keeps no registry of its pages; page handles
live in the engine until closed by their own `PdfPage.close()`. -/
structure DocState where
  docClosed : Bool
  /-- `none` models `self._ld_data is None` -/
  ldDataClosed : Option Bool
  autoclose : Bool
  inputIsBuffer : Bool
  inputClosed : Bool
  /-- page handles loaded from this document (`FPDF_LoadPage`) and not yet closed -/
  openPages : List Nat
  deriving DecidableEq, Repr

/-- `PdfDocument.close` (document.py lines 147-156): closes the native
document, the loader data if present, and — for `autoclose` with buffer
input — the input source.  No other state is touched. -/
def close (s : DocState) : DocState :=
  -- pdfium.FPDF_CloseDocument(self._pdf)
  let s1 : DocState := { s with docClosed := true }
  -- if self._ld_data is not None: self._ld_data.close()
  let s2 : DocState := { s1 with ldDataClosed := s1.ldDataClosed.map (fun _ => true) }
  -- if self._autoclose and is_input_buffer(self._actual_input): self._actual_input.close()
  if s2.autoclose && s2.inputIsBuffer then { s2 with inputClosed := true } else s2

/-- C3: closing a document with one still-open page loaded from it leaves
that page handle open: `close()` never walks child pages, contradicting the
repository's own test `test_closing_parent_closes_kids` (which expects every
page of a closed document to be invalidated). -/
theorem close_does_not_cascade_to_pages :
    (close { docClosed := false, ldDataClosed := none, autoclose := false,
             inputIsBuffer := false, inputClosed := false, openPages := [0] }).openPages
      = [0] ∧
    ([0] : List Nat) ≠ [] := by
  exact ⟨rfl, by simp⟩

/-- C4 counterexample: when the page-level render raises, `_process_page`
returns with both its document and page handles still open — the
`for g in (page, pdf): g.close()` loop is unreachable on that path. -/
theorem process_page_leaks_on_failure :
    (_process_page (ρ := Nat) 0 (.error "render failed")).2
        = { docOpen := true, pageOpen := true } ∧
      ({ docOpen := true, pageOpen := true } : WorkerHandles)
        ≠ { docOpen := false, pageOpen := false } := by
  exact ⟨rfl, by decide⟩

/-- C4 (corrected): `_process_page` closes both of its handles when the
render returns normally, but on a render failure the exception propagates
with both handles still open (no try/finally guards the close loop). -/
theorem process_page_handle_states (index : Int) (outcome : Except String ρ) :
    (∀ r, outcome = .ok r →
      (_process_page index outcome).2 = { docOpen := false, pageOpen := false }) ∧
    (∀ e, outcome = .error e →
      (_process_page index outcome).2 = { docOpen := true, pageOpen := true }) := by
  constructor <;> rintro x rfl <;> rfl

/-- Witness for C4: a successful render at index 3 and a failing one. -/
theorem process_page_handle_states_witness :
    (_process_page (ρ := Nat) 3 (.ok 7)).2 = { docOpen := false, pageOpen := false } ∧
    (_process_page (ρ := Nat) 3 (.error "fail")).2 = { docOpen := true, pageOpen := true } :=
  ⟨(process_page_handle_states 3 (.ok 7)).1 7 rfl,
   (process_page_handle_states 3 (.error "fail")).2 "fail" rfl⟩

/-! ## Rendering-input readiness for buffer input (`_render_base`, lines 417-428) -/

/-- A Python byte buffer: backing data plus a read cursor
(`seek()` / `tell()` / `read()`). -/
structure Buffer where
  data : List Nat
  pos : Nat
  deriving DecidableEq, Repr

def Buffer.tell (b : Buffer) : Nat := b.pos

def Buffer.seek (b : Buffer) (p : Nat) : Buffer := { b with pos := p }

/-- `read()` without a size argument: returns everything from the cursor to
the end and leaves the cursor at the end. -/
def Buffer.read (b : Buffer) : List Nat × Buffer :=
  (b.data.drop b.pos, { b with pos := b.data.length })

/-- The input-readiness step of `_render_base` for a buffer original input:
if `self._rendering_input is None`, read the whole buffer into memory as the
snapshot, restoring the read cursor afterward. -/
def prepare_rendering_input (rendering_input : Option (List Nat)) (orig : Buffer) :
    Option (List Nat) × Buffer :=
  match rendering_input with
  | some ri => (some ri, orig)
  | none =>
      -- cursor = self._orig_input.tell()
      let cursor := orig.tell
      -- self._orig_input.seek(0)
      let b1 := orig.seek 0
      -- self._rendering_input = self._orig_input.read()
      let readResult := b1.read
      -- self._orig_input.seek(cursor)
      (some readResult.1, readResult.2.seek cursor)

/-- C5: for a buffer-backed document with no rendering-input snapshot yet,
the readiness step stores the buffer's *entire* contents as the snapshot and
returns the buffer with its observable position (and data) unchanged. -/
theorem prepare_rendering_input_snapshot (b : Buffer) :
    prepare_rendering_input none b = (some b.data, b) := rfl

/-! ## Outline traversal (`PdfDocument.get_toc`)

The bookmark graph is navigated through
`FPDFBookmark_GetFirstChild(pdf, parent)` (`parent = None` for the root) and
`FPDFBookmark_GetNextSibling(pdf, bookmark)`.  Nodes are identified by their
memory address (`ctypes.addressof(bookmark.contents)`), modelled as `Fin n`
for a graph with `n` distinct node addresses.  Arbitrary link structure is
allowed, including cycles. -/

structure BookmarkGraph (n : Nat) where
  firstChild : Option (Fin n) → Option (Fin n)
  nextSibling : Fin n → Option (Fin n)

mutual

/-- The recursive generator `get_toc(max_depth, parent, level, seen)`
(document.py lines 297-338): the `level >= max_depth` guard followed by the
`while bookmark:` loop over `FPDFBookmark_GetFirstChild(pdf, parent)`.
Yields `(address, level)` pairs (the traversal-relevant part of each
`OutlineItem`) and returns the final shared `seen` set.  The result is
bundled with the fact that `seen` only grows, which drives the termination
argument: every non-breaking loop iteration inserts a fresh address, and
there are at most `n` addresses. -/
def get_toc_rec {n : Nat} (g : BookmarkGraph n) (maxDepth : Nat)
    (parent : Option (Fin n)) (level : Nat) (seen : Finset (Fin n)) :
    { p : List (Fin n × Nat) × Finset (Fin n) // seen ⊆ p.2 } :=
  -- if level >= max_depth: return []
  if level ≥ maxDepth then ⟨([], seen), Finset.Subset.refl seen⟩
  -- bookmark = pdfium.FPDFBookmark_GetFirstChild(self._pdf, parent)
  else tocLoop g maxDepth level (g.firstChild parent) seen
termination_by (n - seen.card, 1)

/-- The `while bookmark:` loop body of `get_toc`. -/
def tocLoop {n : Nat} (g : BookmarkGraph n) (maxDepth level : Nat)
    (bm : Option (Fin n)) (seen : Finset (Fin n)) :
    { p : List (Fin n × Nat) × Finset (Fin n) // seen ⊆ p.2 } :=
  match bm with
  | none => ⟨([], seen), Finset.Subset.refl seen⟩
  | some b =>
      -- address = ctypes.addressof(bookmark.contents)
      if hb : b ∈ seen then
        -- logger.warning("A circular bookmark reference was detected ..."); break
        ⟨([], seen), Finset.Subset.refl seen⟩
      else
        -- seen.add(address); yield self._get_bookmark(bookmark, level)
        -- yield from self.get_toc(max_depth, parent=bookmark, level=level+1, seen=seen)
        match get_toc_rec g maxDepth (some b) (level + 1) (insert b seen) with
        | ⟨(subItems, subSeen), hsub⟩ =>
          -- bookmark = pdfium.FPDFBookmark_GetNextSibling(self._pdf, bookmark)
          let rest := tocLoop g maxDepth level (g.nextSibling b) subSeen
          ⟨((b, level) :: (subItems ++ rest.1.1), rest.1.2),
            fun x hx => rest.2 (hsub (Finset.mem_insert_of_mem hx))⟩
termination_by (n - seen.card, 0)
decreasing_by
  · have h1 : (insert b seen).card = seen.card + 1 := Finset.card_insert_of_not_mem hb
    have h2 : (insert b seen).card ≤ n :=
      le_trans (Finset.card_le_univ _) (le_of_eq (by simp))
    apply Prod.Lex.left
    omega
  · have h1 : (insert b seen).card = seen.card + 1 := Finset.card_insert_of_not_mem hb
    have h2 : (insert b seen).card ≤ subSeen.card := Finset.card_le_card hsub
    have h3 : subSeen.card ≤ n :=
      le_trans (Finset.card_le_univ _) (le_of_eq (by simp))
    apply Prod.Lex.left
    omega

end

/-- `PdfDocument.get_toc(max_depth=15)`: top-level call with `parent=None`,
`level=0`, `seen=set()`. -/
def get_toc {n : Nat} (g : BookmarkGraph n) (maxDepth : Nat) : List (Fin n × Nat) :=
  (get_toc_rec g maxDepth none 0 ∅).1.1

/-- A malformed bookmark graph with a cycle: node `A = 0` is the root's first
child, `B = 1` is `A`'s first child, and `B`'s first child points back at
`A`.  No node has a sibling. -/
def cycleGraph : BookmarkGraph 2 where
  firstChild p :=
    match p with
    | none => some 0
    | some b => if b = 0 then some 1 else some 0
  nextSibling _ := none

theorem tocLoop_none {n : Nat} (g : BookmarkGraph n) (maxDepth level : Nat)
    (seen : Finset (Fin n)) :
    tocLoop g maxDepth level none seen = ⟨([], seen), Finset.Subset.refl seen⟩ := by
  rw [tocLoop.eq_def]

/-- Innermost step of the cycle scenario: the traversal reaches `A` again
(`A`'s address is already in `seen`) and halts that branch. -/
theorem tocLoop_cycle_back :
    tocLoop cycleGraph 15 2 (some 0) (insert 1 (insert 0 ∅))
      = ⟨([], insert 1 (insert 0 ∅)), Finset.Subset.refl _⟩ := by
  apply Subtype.ext
  rw [tocLoop.eq_def]
  dsimp only
  split
  · rfl
  · rename_i h
    exact absurd (by decide) h

theorem get_toc_rec_cycle_back :
    get_toc_rec cycleGraph 15 (some 1) 2 (insert 1 (insert 0 ∅))
      = ⟨([], insert 1 (insert 0 ∅)), Finset.Subset.refl _⟩ := by
  apply Subtype.ext
  rw [get_toc_rec.eq_def]
  rw [if_neg (by omega)]
  rw [show cycleGraph.firstChild (some 1) = some 0 from rfl]
  rw [tocLoop_cycle_back]

/-- Step 2 of the cycle scenario: `B` is visited at level 1; its child is
`A`, whose branch halts. -/
theorem tocLoop_cycle_B :
    tocLoop cycleGraph 15 1 (some 1) (insert 0 ∅)
      = ⟨([(1, 1)], insert 1 (insert 0 ∅)), Finset.subset_insert 1 (insert 0 ∅)⟩ := by
  apply Subtype.ext
  rw [tocLoop.eq_def]
  dsimp only
  split
  · rename_i hb
    exact absurd hb (by decide)
  · rw [show (1 : Nat) + 1 = 2 from rfl, get_toc_rec_cycle_back]
    dsimp only
    rw [show cycleGraph.nextSibling 1 = none from rfl, tocLoop_none]
    rfl

theorem get_toc_rec_cycle_B :
    get_toc_rec cycleGraph 15 (some 0) 1 (insert 0 ∅)
      = ⟨([(1, 1)], insert 1 (insert 0 ∅)), Finset.subset_insert 1 (insert 0 ∅)⟩ := by
  apply Subtype.ext
  rw [get_toc_rec.eq_def]
  rw [if_neg (by omega)]
  rw [show cycleGraph.firstChild (some 0) = some 1 from rfl]
  rw [tocLoop_cycle_B]

/-- Step 1 of the cycle scenario: `A` is visited at level 0. -/
theorem tocLoop_cycle_A :
    tocLoop cycleGraph 15 0 (some 0) ∅
      = ⟨([(0, 0), (1, 1)], insert 1 (insert 0 ∅)), by
          intro x hx
          exact absurd hx (Finset.not_mem_empty x)⟩ := by
  apply Subtype.ext
  rw [tocLoop.eq_def]
  dsimp only
  split
  · rename_i hb
    exact absurd hb (by decide)
  · dsimp only
    rw [show (0 : Nat) + 1 = 1 from rfl]
    rw [get_toc_rec_cycle_B]
    dsimp only
    rw [show cycleGraph.nextSibling 0 = none from rfl, tocLoop_none]
    rfl

/-- Joint invariant of the traversal, by strong induction on the number of
unseen addresses: every yielded item has level below `maxDepth`, its address
is fresh relative to the entry `seen` set and recorded in the final `seen`
set, and no address is yielded twice. -/
theorem toc_strong {n : Nat} (g : BookmarkGraph n) (maxDepth : Nat) :
    ∀ k : Nat,
      (∀ (level : Nat) (bm : Option (Fin n)) (seen : Finset (Fin n)),
          n - seen.card ≤ k → level < maxDepth →
          (∀ p ∈ (tocLoop g maxDepth level bm seen).1.1,
              p.2 < maxDepth ∧ p.1 ∉ seen ∧ p.1 ∈ (tocLoop g maxDepth level bm seen).1.2) ∧
            ((tocLoop g maxDepth level bm seen).1.1.map Prod.fst).Nodup) ∧
      (∀ (parent : Option (Fin n)) (level : Nat) (seen : Finset (Fin n)),
          n - seen.card ≤ k →
          (∀ p ∈ (get_toc_rec g maxDepth parent level seen).1.1,
              p.2 < maxDepth ∧ p.1 ∉ seen ∧
                p.1 ∈ (get_toc_rec g maxDepth parent level seen).1.2) ∧
            ((get_toc_rec g maxDepth parent level seen).1.1.map Prod.fst).Nodup) := by
  intro k
  induction k using Nat.strong_induction_on with
  | _ k ih =>
  have hloop : ∀ (level : Nat) (bm : Option (Fin n)) (seen : Finset (Fin n)),
      n - seen.card ≤ k → level < maxDepth →
      (∀ p ∈ (tocLoop g maxDepth level bm seen).1.1,
          p.2 < maxDepth ∧ p.1 ∉ seen ∧ p.1 ∈ (tocLoop g maxDepth level bm seen).1.2) ∧
        ((tocLoop g maxDepth level bm seen).1.1.map Prod.fst).Nodup := by
    intro level bm seen hk hlevel
    match bm with
    | none =>
        rw [tocLoop_none]
        exact ⟨fun p hp => absurd hp (List.not_mem_nil p), List.nodup_nil⟩
    | some b =>
        rw [tocLoop.eq_def]
        dsimp only
        split
        · exact ⟨fun p hp => absurd hp (List.not_mem_nil p), List.nodup_nil⟩
        · rename_i hb
          -- measure bookkeeping
          have hcard : seen.card < n := by
            have h1 : seen ≠ Finset.univ := fun h => hb (h ▸ Finset.mem_univ b)
            have h2 : seen.card ≤ n :=
              le_trans (Finset.card_le_univ _) (le_of_eq (by simp))
            rcases lt_or_eq_of_le h2 with h3 | h3
            · exact h3
            · exact absurd (Finset.eq_univ_of_card seen (by simp [h3])) h1
          have hins : (insert b seen).card = seen.card + 1 :=
            Finset.card_insert_of_not_mem hb
          -- the recursive child call
          rcases hG : get_toc_rec g maxDepth (some b) (level + 1) (insert b seen) with
            ⟨⟨si, ss⟩, hsub⟩
          have hchild := (ih (n - (insert b seen).card) (by omega)).2
            (some b) (level + 1) (insert b seen) (le_refl _)
          rw [hG] at hchild
          dsimp only at hchild
          dsimp only
          -- the sibling continuation
          have hss : (insert b seen).card ≤ ss.card := Finset.card_le_card hsub
          have hsib := (ih (n - ss.card) (by omega)).1 level (g.nextSibling b) ss
            (le_refl _) hlevel
          have hmono : ss ⊆ (tocLoop g maxDepth level (g.nextSibling b) ss).1.2 :=
            (tocLoop g maxDepth level (g.nextSibling b) ss).2
          have hbfin : b ∈ (tocLoop g maxDepth level (g.nextSibling b) ss).1.2 :=
            hmono (hsub (Finset.mem_insert_self b seen))
          constructor
          · intro p hp
            rcases List.mem_cons.mp hp with rfl | hp1
            · exact ⟨hlevel, hb, hbfin⟩
            · rcases List.mem_append.mp hp1 with hp2 | hp2
              · obtain ⟨hd, hns, hin⟩ := hchild.1 p hp2
                exact ⟨hd, fun hmem => hns (Finset.mem_insert_of_mem hmem),
                  hmono hin⟩
              · obtain ⟨hd, hns, hin⟩ := hsib.1 p hp2
                exact ⟨hd,
                  fun hmem => hns (hsub (Finset.mem_insert_of_mem hmem)), hin⟩
          · rw [List.map_cons, List.map_append]
            refine List.nodup_cons.mpr ⟨?_, ?_⟩
            · intro hmem
              rcases List.mem_append.mp hmem with hm | hm
              · obtain ⟨p, hp, hp1⟩ := List.mem_map.mp hm
                exact (hchild.1 p hp).2.1 (hp1 ▸ Finset.mem_insert_self b seen)
              · obtain ⟨p, hp, hp1⟩ := List.mem_map.mp hm
                exact (hsib.1 p hp).2.1
                  (hp1 ▸ hsub (Finset.mem_insert_self b seen))
            · refine List.Nodup.append hchild.2 hsib.2 ?_
              intro x hx hx2
              obtain ⟨p, hp, hp1⟩ := List.mem_map.mp hx
              obtain ⟨q, hq, hq1⟩ := List.mem_map.mp hx2
              exact (hsib.1 q hq).2.1 (hq1 ▸ hp1 ▸ (hchild.1 p hp).2.2)
  refine ⟨hloop, ?_⟩
  intro parent level seen hk
  rw [get_toc_rec.eq_def]
  split
  · exact ⟨fun p hp => absurd hp (List.not_mem_nil p), List.nodup_nil⟩
  · rename_i hge
    exact hloop level (g.firstChild parent) seen hk (by omega)

theorem get_toc_cycle_eval :
    get_toc cycleGraph 15 = [(0, 0), (1, 1)] := by
  unfold get_toc
  rw [get_toc_rec.eq_def]
  rw [if_neg (by omega)]
  rw [show cycleGraph.firstChild none = some 0 from rfl]
  rw [tocLoop_cycle_A]

/-- C6: for every bookmark graph — cycles included — the outline traversal
terminates (it is a total function) with no address yielded twice (a
repeated address halts its branch) and no item at a level `≥ max_depth`;
in particular the malformed cycle `A -> B -> A` yields `A` at level 0 and
`B` at level 1 and then halts that branch. -/
theorem get_toc_cycle_safe :
    (∀ (n : Nat) (g : BookmarkGraph n) (maxDepth : Nat),
        ((get_toc g maxDepth).map Prod.fst).Nodup ∧
          ∀ p ∈ get_toc g maxDepth, p.2 < maxDepth) ∧
      get_toc cycleGraph 15 = [(0, 0), (1, 1)] := by
  constructor
  · intro n g maxDepth
    have h := (toc_strong g maxDepth n).2 none 0 ∅ (by simp)
    exact ⟨h.2, fun p hp => (h.1 p hp).1⟩
  · exact get_toc_cycle_eval

/-- Witness for C6, on the concrete cycle graph. -/
theorem get_toc_cycle_safe_witness :
    ((get_toc cycleGraph 15).map Prod.fst).Nodup ∧
      ((0 : Fin 2), 0) ∈ get_toc cycleGraph 15 ∧ ((0 : Fin 2), 0).2 < 15 := by
  have h := get_toc_cycle_safe
  refine ⟨(h.1 2 cycleGraph 15).1, ?_, ?_⟩
  · rw [h.2]
    exact List.mem_cons_self _ _
  · exact (h.1 2 cycleGraph 15).2 (0, 0) (by rw [h.2]; exact List.mem_cons_self _ _)

/-! ## Page insertion (`PdfDocument.new_page`) -/

/-- Modelled from the spec: the insertion position of the native
`FPDFPage_New(document, index, width, height)`, whose implementation is not
among the sources under verification.  Per the spec ("`new_page` clamps
index to `[0, page_count]` (null/over-range index appends)") and the
helper's documented contract ("If *index* is less or equal to zero, the page
will be inserted at the beginning.  If *index* is None or larger that the
document's current last index, the page will be appended to the end."), the
engine inserts at the index clamped to `[0, page_count]`. -/
def fpdfPage_New_position (page_count : Nat) (index : Int) : Nat :=
  if index ≤ 0 then 0 else min index.toNat page_count

/-- `PdfDocument.new_page(width, height, index=None)` (lines 203-223): a
`None` index is replaced by `len(self)`; the index is then handed to the
engine unchecked (`_verify_index` is never called on this path, so the
operation is total — no out-of-bounds error).  Result: the insertion
position of the new page. -/
def new_page (page_count : Nat) (index : Option Int) : Nat :=
  match index with
  | none => fpdfPage_New_position page_count (page_count : Int)
  | some i => fpdfPage_New_position page_count i

/-- C7: the effective insertion position always lies in `[0, page_count]`;
a `None` index and an over-range index both append at `page_count`. -/
theorem new_page_clamps (page_count : Nat) (index : Option Int) :
    new_page page_count index ≤ page_count ∧
      (index = none → new_page page_count index = page_count) ∧
      (∀ i : Int, index = some i → (page_count : Int) ≤ i →
        new_page page_count index = page_count) := by
  cases index with
  | none =>
      refine ⟨?_, ?_, ?_⟩
      · simp only [new_page, fpdfPage_New_position, Nat.min_def]
        split_ifs <;> omega
      · intro _
        simp only [new_page, fpdfPage_New_position, Nat.min_def]
        split_ifs <;> omega
      · intro j hj _
        exact absurd hj (by simp)
  | some i =>
      refine ⟨?_, ?_, ?_⟩
      · simp only [new_page, fpdfPage_New_position, Nat.min_def]
        split_ifs <;> omega
      · intro h
        exact absurd h (by simp)
      · intro j hj hge
        have hij : i = j := by injection hj
        subst hij
        simp only [new_page, fpdfPage_New_position, Nat.min_def]
        split_ifs <;> omega

/-- Witness for C7: a 3-page document with a `None` index and with the
over-range index 7. -/
theorem new_page_clamps_witness :
    new_page 3 none ≤ 3 ∧ new_page 3 none = 3 ∧ new_page 3 (some 7) = 3 := by
  have h1 := new_page_clamps 3 none
  have h2 := new_page_clamps 3 (some 7)
  exact ⟨h1.1, h1.2.1 rfl, h2.2.2 7 rfl (by omega)⟩

/-! ## Saving and reopening (`PdfDocument.save`, `_writer_class`) -/

/-- A PDF document as the engine sees it for serialization: its pages, each
reduced to a geometry pair. -/
structure EngineDoc where
  pages : List (Nat × Nat)
  deriving DecidableEq, Repr

/-- Modelled from the spec: the byte stream `FPDF_SaveAsCopy` /
`FPDF_SaveWithVersion` emits through the write callback (the engine's
serializer is not among the sources under verification; the spec specifies
it only through the round-trip property).  Encoded as a page-count header
followed by the page geometries. -/
def engineSaveBytes (d : EngineDoc) : List Nat :=
  d.pages.length :: d.pages.bind (fun p => [p.1, p.2])

/-- Modelled from the spec: the page-list reader of the engine's document
loader; expects `count` geometry pairs. -/
def decodePages : Nat → List Nat → Option (List (Nat × Nat))
  | 0, [] => some []
  | 0, _ :: _ => none
  | _ + 1, [] => none
  | _ + 1, [_] => none
  | k + 1, w :: h :: rest => (decodePages k rest).map (fun ps => (w, h) :: ps)

/-- Modelled from the spec: the engine's document loader (`open_pdf` over
`FPDF_LoadMemDocument`, not among the sources under verification) applied to
bytes in the serializer's format: page-count header, then geometries. -/
def engineOpen (bytes : List Nat) : Option EngineDoc :=
  match bytes with
  | [] => none
  | count :: rest => (decodePages count rest).map (fun ps => ⟨ps⟩)

theorem decodePages_encode (ps : List (Nat × Nat)) :
    decodePages ps.length (ps.bind (fun p => [p.1, p.2])) = some ps := by
  induction ps with
  | nil => rfl
  | cons p rest ih =>
      rw [List.length_cons]
      show decodePages (rest.length + 1) (p.1 :: p.2 :: rest.bind fun q => [q.1, q.2])
        = some (p :: rest)
      simp only [decodePages, ih, Option.map_some']

/-- An output object passed to `save`: whether it exposes a callable
`write()`, and the blocks written to it so far. -/
structure OutBuffer where
  hasWrite : Bool
  written : List (List Nat)
  deriving DecidableEq, Repr

inductive SaveErr
  /-- `ValueError("Output buffer must implement the write() method.")` -/
  | valueError
  /-- `PdfiumError("Saving the document failed")` -/
  | pdfiumError
  deriving DecidableEq, Repr

/-- `_writer_class.__init__` (lines 493-496): raises `ValueError` unless the
buffer exposes a callable `write()`. -/
def _writer_class_init (buffer : OutBuffer) : Except SaveErr OutBuffer :=
  if buffer.hasWrite then .ok buffer else .error .valueError

/-- `PdfDocument.save(buffer, version=None)` (lines 172-195): build the
write callback — whose construction validates the sink — then let the
engine serialize the document through it, raising `PdfiumError` if the
engine reports failure (`engineOk` models that report).  Returns the
outcome, the final sink state, and whether the engine's save operation was
invoked. -/
def save (d : EngineDoc) (engineOk : Bool) (buffer : OutBuffer) :
    Except SaveErr Unit × OutBuffer × Bool :=
  match _writer_class_init buffer with
  | .error e => (.error e, buffer, false)  -- raised before FPDF_SaveAsCopy runs
  | .ok buf =>
      -- the engine streams the serialized bytes through `_writer_class.__call__`
      let buf2 : OutBuffer := { buf with written := buf.written ++ [engineSaveBytes d] }
      if engineOk then (.ok (), buf2, true)
      else (.error .pdfiumError, buf2, true)

/-- C8: when `save` succeeds, reopening the bytes it wrote yields a document
with the same page count. -/
theorem save_reopen_page_count (d : EngineDoc) (engineOk : Bool)
    (buffer : OutBuffer) (bytes : List Nat)
    (hok : (save d engineOk buffer).1 = .ok ())
    (hbytes : (save d engineOk buffer).2.1.written = buffer.written ++ [bytes]) :
    ∃ d' : EngineDoc, engineOpen bytes = some d' ∧ d'.pages.length = d.pages.length := by
  unfold save _writer_class_init at hok hbytes
  by_cases hw : buffer.hasWrite
  · rw [if_pos hw] at hok hbytes
    dsimp only at hok hbytes
    cases he : engineOk with
    | false =>
        rw [he] at hok
        simp at hok
    | true =>
        rw [he] at hbytes
        simp only [if_pos] at hbytes
        have hb : [engineSaveBytes d] = [bytes] := List.append_cancel_left hbytes
        have hb2 : engineSaveBytes d = bytes := by injection hb
        subst hb2
        refine ⟨⟨d.pages⟩, ?_, rfl⟩
        unfold engineOpen engineSaveBytes
        dsimp only
        rw [decodePages_encode]
        rfl
  · rw [if_neg hw] at hok
    exact absurd hok (by simp)

/-- Witness for C8: a one-page A4 document saved into an empty sink. -/
theorem save_reopen_page_count_witness :
    ∃ d' : EngineDoc,
      engineOpen (engineSaveBytes ⟨[(595, 842)]⟩) = some d' ∧
        d'.pages.length = (⟨[(595, 842)]⟩ : EngineDoc).pages.length :=
  save_reopen_page_count ⟨[(595, 842)]⟩ true ⟨true, []⟩
    (engineSaveBytes ⟨[(595, 842)]⟩) rfl rfl

/-- C10: a sink without a callable `write()` makes `save` raise
`ValueError` — not the domain `PdfiumError` — before the engine's save
operation is invoked: the sink is unchanged and the engine never runs. -/
theorem save_rejects_unwritable_sink (d : EngineDoc) (engineOk : Bool)
    (buffer : OutBuffer) (h : buffer.hasWrite = false) :
    save d engineOk buffer = (.error .valueError, buffer, false) ∧
      SaveErr.valueError ≠ SaveErr.pdfiumError := by
  refine ⟨?_, by simp⟩
  unfold save _writer_class_init
  rw [if_neg (by rw [h]; exact Bool.false_ne_true)]

/-- Witness for C10: a write-less sink. -/
theorem save_rejects_unwritable_sink_witness :
    save ⟨[(595, 842)]⟩ true ⟨false, []⟩ = (.error .valueError, ⟨false, []⟩, false) ∧
      SaveErr.valueError ≠ SaveErr.pdfiumError :=
  save_rejects_unwritable_sink ⟨[(595, 842)]⟩ true ⟨false, []⟩ rfl

end PyPdfium
